import Mathlib

/-!
Verification of the go-milter server (`src/server.go`) and, where the
repository ships only the interface side, of the spec's description of the
per-connection protocol engine.

Source-derived definitions follow `src/server.go` directly
(`serverProtocolVersion`, the `Milter` interface shape, `NoOpMilter`,
`Server.Serve`, `Server.Close`).  The wire codec, option negotiator,
session state machine and response/modifier encoder are not part of
`src/`; those are modelled from the spec, as marked on each definition.
-/

namespace GoMilter

/-- Verdict returned by a filter callback (the spec's `Verdict`
enumeration; `Response` is the name used by `src/server.go`). -/
inductive Response where
  | Continue
  | Accept
  | Reject
  | Discard
  | TempFail
  | ReplyCode (code : Nat) (text : String)
  | SkipRemainingBody
deriving DecidableEq, Repr

/-- From `src/server.go`: `RespContinue`, the continue response value. -/
def RespContinue : Response := Response.Continue

/-- From `src/server.go`: `RespAccept`, the accept response value. -/
def RespAccept : Response := Response.Accept

/-- Message-edit action enqueued by a filter through the Modifier
(the spec's `ModificationAction` tagged variant). -/
inductive ModificationAction where
  | addHeader (name value : String)
  | insertHeader (index : Nat) (name value : String)
  | changeHeader (index : Nat) (name value : String)
  | changeSender (addr args : String)
  | addRecipient (addr args : String)
  | deleteRecipient (addr : String)
  | replaceBody (chunk : List Nat)
  | quarantine (reason : String)
  | setSymbolList (stage : Nat) (symbols : String)
deriving DecidableEq, Repr

/-! ## Wire codec (spec §4.1, §6 wire format)

Modelled from the spec: the wire codec itself is not under `src/`.
A frame is a 4-byte big-endian length prefix, then a 1-byte command
code, then the payload; the length counts commandCode + payload. -/

/-- A protocol frame as the spec's data model describes it:
length (unsigned 32-bit), command code (1 byte), payload bytes. -/
structure Frame where
  length : Nat
  commandCode : Nat
  payload : List Nat
deriving DecidableEq, Repr

/-- Decoding failures of the wire codec (the spec's `ProtocolError`). -/
inductive ProtocolError where
  | truncated
  | oversized
  | emptyFrame
deriving DecidableEq, Repr

/-- Big-endian 4-byte encoding of a 32-bit unsigned value. -/
def be32 (n : Nat) : List Nat :=
  [n / 2 ^ 24 % 256, n / 2 ^ 16 % 256, n / 2 ^ 8 % 256, n % 256]

/-- Modelled from the spec: `writeFrame` serialization — big-endian
length prefix, then the command code byte, then the payload. -/
def encode (f : Frame) : List Nat :=
  be32 f.length ++ f.commandCode :: f.payload

/-- Modelled from the spec: `readFrame` — reads the 4-byte big-endian
length, fails with `ProtocolError` when the declared length exceeds the
configured maximum or the buffer is cut short, otherwise yields the
frame. -/
def decode (maxLen : Nat) (buf : List Nat) : Except ProtocolError Frame :=
  match buf with
  | a :: b :: c :: d :: rest =>
    let len := a * 2 ^ 24 + b * 2 ^ 16 + c * 2 ^ 8 + d
    if maxLen < len then Except.error ProtocolError.oversized
    else if len = 0 then Except.error ProtocolError.emptyFrame
    else if rest.length < len then Except.error ProtocolError.truncated
    else
      match rest with
      | cmd :: tail => Except.ok ⟨len, cmd, tail.take (len - 1)⟩
      | [] => Except.error ProtocolError.truncated
  | _ => Except.error ProtocolError.truncated

/-! ## Option negotiator (spec §4.2) -/

/-- From `src/server.go`: `serverProtocolVersion`, the milter protocol
version implemented by the server. -/
def serverProtocolVersion : Nat := 2

/-- Result of a successful capability handshake: effective version,
action bitmask and protocol bitmask for the connection. -/
structure OptNegResult where
  version : Nat
  actions : Nat
  protocol : Nat
deriving DecidableEq, Repr

/-- Command code of the option-negotiation frame. -/
def optNegCode : Nat := 0x4F

/-- Modelled from the spec: the Option Negotiator (not under `src/`;
only `serverProtocolVersion` is).  Given the filter's configured action
and protocol bitmasks and the peer's advertised version and bitmasks, it
fails closed — terminating with no frame written — when the peer version
is below the minimum this implementation supports, and otherwise
produces the bitwise-AND capabilities and minimum version, replying with
one option-negotiation frame that carries them. -/
def negotiate (filterActions filterProtocol : Nat)
    (peerVersion peerActions peerProtocol : Nat) :
    Option OptNegResult × List Frame :=
  if peerVersion < serverProtocolVersion then (none, [])
  else
    let r : OptNegResult :=
      ⟨min peerVersion serverProtocolVersion,
       peerActions &&& filterActions,
       peerProtocol &&& filterProtocol⟩
    let payload := be32 r.version ++ be32 r.actions ++ be32 r.protocol
    (some r, [⟨1 + payload.length, optNegCode, payload⟩])

end GoMilter

namespace GoMilter

/-! ## Codec lemmas -/

theorem be32_length (n : Nat) : (be32 n).length = 4 := rfl

theorem be32_reassemble (n : Nat) (h : n < 2 ^ 32) :
    n / 2 ^ 24 % 256 * 2 ^ 24 + n / 2 ^ 16 % 256 * 2 ^ 16 +
      n / 2 ^ 8 % 256 * 2 ^ 8 + n % 256 = n := by
  omega

/-- C6: round-trip — decoding an encoded frame with a valid length field
returns the frame unchanged; decoding any strict prefix of the encoding
fails with `ProtocolError.truncated`; decoding a buffer whose declared
length exceeds the configured maximum fails with
`ProtocolError.oversized`. -/
theorem decode_encode_roundtrip (f : Frame) (maxLen : Nat)
    (hlen : f.length = 1 + f.payload.length)
    (hmax : f.length ≤ maxLen)
    (h32 : f.length < 2 ^ 32) :
    decode maxLen (encode f) = Except.ok f ∧
    (∀ k, k < (encode f).length →
      decode maxLen ((encode f).take k) = Except.error ProtocolError.truncated) ∧
    (∀ a b c d rest, maxLen < a * 2 ^ 24 + b * 2 ^ 16 + c * 2 ^ 8 + d →
      decode maxLen (a :: b :: c :: d :: rest) =
        Except.error ProtocolError.oversized) := by
  obtain ⟨L, cmd, payload⟩ := f
  simp only [Frame.mk.injEq] at *
  subst hlen
  refine ⟨?_, ?_, ?_⟩
  · simp only [encode, decode, be32, List.cons_append, List.nil_append]
    rw [be32_reassemble _ h32]
    simp only [List.length_cons]
    rw [if_neg (by omega), if_neg (by omega), if_neg (by omega)]
    simp [List.take_of_length_le]
  · intro k hk
    simp only [encode, be32, List.cons_append, List.nil_append,
      List.length_cons] at hk ⊢
    match k with
    | 0 => simp [decode]
    | 1 => simp [decode]
    | 2 => simp [decode]
    | 3 => simp [decode]
    | (m + 4) =>
      simp only [List.take_succ_cons, decode]
      rw [be32_reassemble _ h32]
      rw [if_neg (by omega), if_neg (by omega),
        if_pos (by simp [List.length_take]; omega)]
  · intro a b c d rest h
    simp only [decode]
    rw [if_pos h]

/-- Closed instance of the round-trip theorem at a concrete frame. -/
theorem decode_encode_roundtrip_example :
    decode 65536 (encode ⟨3, 77, [1, 2]⟩) = Except.ok ⟨3, 77, [1, 2]⟩ :=
  (decode_encode_roundtrip ⟨3, 77, [1, 2]⟩ 65536 (by decide) (by decide)
    (by decide)).1

/-! ## Negotiation lemmas -/

/-- C1: negotiation yields the bitwise-AND of the peer and filter
capability bitmasks and the minimum of the two versions, and a peer
version below the minimum supported (`serverProtocolVersion = 2`)
terminates the handshake with no frame written. -/
theorem negotiate_effective_capabilities
    (fa fp pv pa pp : Nat) :
    (serverProtocolVersion ≤ pv →
      (negotiate fa fp pv pa pp).1 =
        some ⟨min pv serverProtocolVersion, pa &&& fa, pp &&& fp⟩) ∧
    (pv < serverProtocolVersion →
      negotiate fa fp pv pa pp = (none, [])) := by
  constructor
  · intro h
    simp [negotiate, Nat.not_lt.mpr h]
  · intro h
    simp [negotiate, h]

/-- Closed instance of the negotiation theorem: version 6 peer succeeds
with AND-reduced masks; version 1 peer is rejected with no frame. -/
theorem negotiate_effective_capabilities_example :
    (negotiate 0x0F 0x01 6 0x1F 0x00).1 = some ⟨2, 0x0F, 0x00⟩ ∧
    negotiate 7 7 1 5 5 = (none, []) :=
  ⟨(negotiate_effective_capabilities 0x0F 0x01 6 0x1F 0x00).1 (by decide),
   (negotiate_effective_capabilities 7 7 1 5 5).2 (by decide)⟩

end GoMilter

namespace GoMilter

/-! ## Session state machine (spec §4.3)

Modelled from the spec: the per-connection protocol engine is not under
`src/`; only the `Milter` callback interface it drives is.  The filter
is abstracted as a response function `Command → Except Unit Response`
(an `Except.error` is a callback error, matching the `(Response, error)`
returns of the interface) together with a function giving the
modification actions the filter enqueues during the end-of-message
callback. -/

/-- The suppressible stages of the `Milter` interface; the `OptNo...`
constants named in the `src/server.go` comments suppress exactly these
seven callbacks. -/
inductive Stage where
  | connect
  | helo
  | mailFrom
  | rcptTo
  | header
  | headers
  | bodyChunk
deriving DecidableEq, Repr

/-- Modelled from the spec: bit position of each stage's suppression
flag in the protocol bitmask (OptNoConnect, OptNoHelo, OptNoMailFrom,
OptNoRcptTo, OptNoBody, OptNoHeaders, OptNoEOH as named in the
`src/server.go` comments; the constants live outside `src/`). -/
def stageBit : Stage → Nat
  | Stage.connect => 0
  | Stage.helo => 1
  | Stage.mailFrom => 2
  | Stage.rcptTo => 3
  | Stage.bodyChunk => 4
  | Stage.header => 5
  | Stage.headers => 6

/-- The filter callbacks of the `Milter` interface in `src/server.go`:
the seven suppressible stage callbacks plus `Body` (end of message) and
`Abort`. -/
inductive Callback where
  | connect
  | helo
  | mailFrom
  | rcptTo
  | header
  | headers
  | bodyChunk
  | body
  | abortCb
deriving DecidableEq, Repr

/-- The callback a suppressible stage dispatches to. -/
def Stage.toCallback : Stage → Callback
  | Stage.connect => Callback.connect
  | Stage.helo => Callback.helo
  | Stage.mailFrom => Callback.mailFrom
  | Stage.rcptTo => Callback.rcptTo
  | Stage.header => Callback.header
  | Stage.headers => Callback.headers
  | Stage.bodyChunk => Callback.bodyChunk

/-- Incoming peer commands.  Connect and Helo carry the MTA-supplied
macro symbols for their stage (spec: macro sets are attached to stage
commands). -/
inductive Command where
  | connect (host : String) (syms : List (String × String))
  | helo (name : String) (syms : List (String × String))
  | mailFrom (sender : String)
  | rcptTo (rcpt : String)
  | header (name value : String)
  | eoh
  | bodyChunk (chunk : List Nat)
  | endOfMessage
  | abort
  | quit
deriving DecidableEq, Repr

/-- Connection phases of the state machine (spec §4.3 traversal order;
`postHelo` is the idle state between messages, the spec's
`PostHeloIdle`). -/
inductive Phase where
  | negotiated
  | postConnect
  | postHelo
  | inMessage
  | closed
deriving DecidableEq, Repr

/-- Per-connection session state (spec §3 `Session`): the negotiated,
immutable capabilities and the connection-scoped Connect/Helo macro
symbols and verdicts, plus the message-scoped envelope, headers, body
progress, skip flag and pending modification actions. -/
structure SessionState where
  version : Nat
  actions : Nat
  protocol : Nat
  connectSymbols : List (String × String)
  heloSymbols : List (String × String)
  connectVerdict : Option Response
  heloVerdict : Option Response
  phase : Phase
  envelopeFrom : Option String
  rcpts : List String
  msgHeaders : List (String × String)
  bodyProgress : Nat
  skipping : Bool
  pendingActions : List ModificationAction
deriving DecidableEq, Repr

/-- Session state right after a successful handshake. -/
def initialSession (r : OptNegResult) : SessionState :=
  ⟨r.version, r.actions, r.protocol, [], [], none, none,
   Phase.negotiated, none, [], [], 0, false, []⟩

/-- Which commands are permitted in which phase (spec §4.3: receiving a
command out of its permitted state is a protocol error). -/
def commandAllowed : Phase → Command → Bool
  | Phase.negotiated, Command.connect _ _ => true
  | Phase.postConnect, Command.helo _ _ => true
  | Phase.postHelo, Command.mailFrom _ => true
  | Phase.inMessage, Command.rcptTo _ => true
  | Phase.inMessage, Command.header _ _ => true
  | Phase.inMessage, Command.eoh => true
  | Phase.inMessage, Command.bodyChunk _ => true
  | Phase.inMessage, Command.endOfMessage => true
  | Phase.postConnect, Command.abort => true
  | Phase.postHelo, Command.abort => true
  | Phase.inMessage, Command.abort => true
  | _, Command.quit => true
  | _, _ => false

/-- Discard all message-scoped data, back to the idle state after Helo;
connection-scoped fields are untouched (spec §4.3 `Abort`). -/
def resetMessage (st : SessionState) : SessionState :=
  { st with
    phase := Phase.postHelo
    envelopeFrom := none
    rcpts := []
    msgHeaders := []
    bodyProgress := 0
    skipping := false
    pendingActions := [] }

/-- Record the data a command carries into the session (macros for
Connect/Helo, envelope sender, recipients, headers, body progress);
MailFrom starts a clean message. -/
def applyData (st : SessionState) (c : Command) : SessionState :=
  match c with
  | Command.connect _ syms => { st with connectSymbols := syms }
  | Command.helo _ syms => { st with heloSymbols := syms }
  | Command.mailFrom sender =>
      { resetMessage st with envelopeFrom := some sender }
  | Command.rcptTo r => { st with rcpts := st.rcpts ++ [r] }
  | Command.header n v => { st with msgHeaders := st.msgHeaders ++ [(n, v)] }
  | Command.bodyChunk _ => { st with bodyProgress := st.bodyProgress + 1 }
  | _ => st

/-- Record the connection-scoped Connect/Helo verdicts. -/
def recordVerdict (st : SessionState) (c : Command) (r : Response) :
    SessionState :=
  match c with
  | Command.connect _ _ => { st with connectVerdict := some r }
  | Command.helo _ _ => { st with heloVerdict := some r }
  | _ => st

/-- Phase reached after a stage command completes. -/
def advancePhase (st : SessionState) (c : Command) : SessionState :=
  match c with
  | Command.connect _ _ => { st with phase := Phase.postConnect }
  | Command.helo _ _ => { st with phase := Phase.postHelo }
  | Command.mailFrom _ => { st with phase := Phase.inMessage }
  | _ => st

/-! ## Response/modifier encoder (spec §4.4) -/

/-- Outgoing frames the encoder emits: a modification-action frame or a
verdict frame. -/
inductive OutFrame where
  | action (a : ModificationAction)
  | verdict (r : Response)
deriving DecidableEq, Repr

/-- Modelled from the spec: the Modifier capability — ownership of each
created action transfers to the session's pending-action queue in call
order (append-only buffer). -/
def enqueue (st : SessionState) (a : ModificationAction) : SessionState :=
  { st with pendingActions := st.pendingActions ++ [a] }

/-- Emit one frame per pending modification action, front of the queue
first. -/
def flushActions : List ModificationAction → List OutFrame
  | [] => []
  | a :: rest => OutFrame.action a :: flushActions rest

/-- Modelled from the spec: `flush` — writes the pending modification
actions as frames in FIFO order of creation, followed by exactly one
verdict frame. -/
def flush (pending : List ModificationAction) (r : Response) :
    List OutFrame :=
  flushActions pending ++ [OutFrame.verdict r]

/-! ## Dispatch -/

/-- Modelled from the spec: dispatch of one suppressible stage command.
A stage whose bit is set in the negotiated protocol bitmask never
reaches the filter and is treated as an implicit Continue; an
already-decided (skipping) message stops invoking per-item callbacks; a
callback error is relayed as TempFail and tears the connection down;
Reject/Discard/TempFail/ReplyCode at RcptTo is scoped to that one
recipient, at any other stage it ends the message; Accept
short-circuits the rest of the message. -/
def stageCommandStep (F : Command → Except Unit Response)
    (st : SessionState) (c : Command) (s : Stage) :
    SessionState × List Callback × List OutFrame :=
  if Nat.testBit st.protocol (stageBit s) then
    (advancePhase (applyData st c) c, [], [])
  else if st.skipping then
    (advancePhase st c, [], [])
  else
    match F c with
    | Except.error _ =>
        ({ st with phase := Phase.closed }, [s.toCallback],
         [OutFrame.verdict Response.TempFail])
    | Except.ok r =>
        match r with
        | Response.Reject | Response.Discard | Response.TempFail
        | Response.ReplyCode _ _ =>
            if s = Stage.rcptTo then
              (recordVerdict st c r, [s.toCallback], [OutFrame.verdict r])
            else
              ({ advancePhase (recordVerdict st c r) c with skipping := true },
               [s.toCallback], [OutFrame.verdict r])
        | Response.Accept =>
            ({ advancePhase (applyData (recordVerdict st c r) c) c with
                skipping := true },
             [s.toCallback], [OutFrame.verdict r])
        | _ =>
            (advancePhase (applyData (recordVerdict st c r) c) c,
             [s.toCallback], [OutFrame.verdict r])

/-- Modelled from the spec: one step of the session state machine.
Returns the next state, the filter callbacks invoked, and the frames
written. -/
def step (F : Command → Except Unit Response)
    (A : Command → List ModificationAction)
    (st : SessionState) (c : Command) :
    SessionState × List Callback × List OutFrame :=
  if st.phase = Phase.closed then (st, [], [])
  else if commandAllowed st.phase c then
    match c with
    | Command.quit => ({ st with phase := Phase.closed }, [], [])
    | Command.abort =>
        match F Command.abort with
        | Except.error _ =>
            ({ st with phase := Phase.closed }, [Callback.abortCb],
             [OutFrame.verdict Response.TempFail])
        | Except.ok _ => (resetMessage st, [Callback.abortCb], [])
    | Command.endOfMessage =>
        if st.skipping then (resetMessage st, [], [])
        else
          match F Command.endOfMessage with
          | Except.error _ =>
              ({ st with phase := Phase.closed }, [Callback.body],
               [OutFrame.verdict Response.TempFail])
          | Except.ok r =>
              let stq := (A Command.endOfMessage).foldl enqueue st
              (resetMessage stq, [Callback.body], flush stq.pendingActions r)
    | c' => stageCommandStep F st c'
        (match c' with
         | Command.connect _ _ => Stage.connect
         | Command.helo _ _ => Stage.helo
         | Command.mailFrom _ => Stage.mailFrom
         | Command.rcptTo _ => Stage.rcptTo
         | Command.header _ _ => Stage.header
         | Command.eoh => Stage.headers
         | _ => Stage.bodyChunk)
  else ({ st with phase := Phase.closed }, [], [])

/-- Run the state machine over a command sequence, accumulating the
invoked callbacks and the written frames. -/
def run (F : Command → Except Unit Response)
    (A : Command → List ModificationAction) :
    SessionState → List Command →
    SessionState × List Callback × List OutFrame
  | st, [] => (st, [], [])
  | st, c :: cs =>
      let r1 := step F A st c
      let r2 := run F A r1.1 cs
      (r2.1, r1.2.1 ++ r2.2.1, r1.2.2 ++ r2.2.2)

end GoMilter

namespace GoMilter

/-! ## Invariants of the machine -/

theorem resetMessage_protocol (st : SessionState) :
    (resetMessage st).protocol = st.protocol := rfl

theorem applyData_protocol (st : SessionState) (c : Command) :
    (applyData st c).protocol = st.protocol := by
  cases c <;> rfl

theorem recordVerdict_protocol (st : SessionState) (c : Command)
    (r : Response) : (recordVerdict st c r).protocol = st.protocol := by
  cases c <;> rfl

theorem advancePhase_protocol (st : SessionState) (c : Command) :
    (advancePhase st c).protocol = st.protocol := by
  cases c <;> rfl

theorem enqueue_protocol (st : SessionState) (a : ModificationAction) :
    (enqueue st a).protocol = st.protocol := rfl

theorem foldl_enqueue_protocol (as : List ModificationAction)
    (st : SessionState) : (as.foldl enqueue st).protocol = st.protocol := by
  induction as generalizing st with
  | nil => rfl
  | cons a as ih => rw [List.foldl_cons, ih, enqueue_protocol]

theorem stageCommandStep_protocol (F : Command → Except Unit Response)
    (st : SessionState) (c : Command) (s : Stage) :
    (stageCommandStep F st c s).1.protocol = st.protocol := by
  unfold stageCommandStep
  split
  · simp [advancePhase_protocol, applyData_protocol]
  · split
    · simp [advancePhase_protocol]
    · rcases F c with e | r
      · simp
      · rcases r <;>
          first
            | (simp only []
               split <;>
                 simp [advancePhase_protocol, applyData_protocol,
                   recordVerdict_protocol])
            | simp [advancePhase_protocol, applyData_protocol,
                recordVerdict_protocol]

theorem step_protocol (F : Command → Except Unit Response)
    (A : Command → List ModificationAction)
    (st : SessionState) (c : Command) :
    (step F A st c).1.protocol = st.protocol := by
  unfold step
  split
  · rfl
  · split
    · cases c <;>
        simp only [stageCommandStep_protocol] <;>
        first
          | rfl
          | (rcases F Command.abort with e | r <;> simp [resetMessage_protocol])
          | (split
             · simp [resetMessage_protocol]
             · rcases F Command.endOfMessage with e | r <;>
                 simp [resetMessage_protocol, foldl_enqueue_protocol])
    · rfl

end GoMilter

namespace GoMilter

/-! ## C2: suppression correctness -/

theorem toCallback_injective (s s' : Stage)
    (h : Stage.toCallback s = Stage.toCallback s') : s = s' := by
  cases s <;> cases s' <;> simp_all [Stage.toCallback]

theorem stageCommandStep_suppressed (F : Command → Except Unit Response)
    (st : SessionState) (c : Command) (s' s : Stage)
    (h : Nat.testBit st.protocol (stageBit s) = true) :
    Stage.toCallback s ∉ (stageCommandStep F st c s').2.1 := by
  by_cases hs : s' = s
  · subst hs
    unfold stageCommandStep
    rw [if_pos h]
    simp
  · have hne : Stage.toCallback s ≠ Stage.toCallback s' := fun hc =>
      hs (toCallback_injective s s' hc).symm
    unfold stageCommandStep
    split
    · simp
    · split
      · simp
      · rcases F c with e | r
        · simp [hne]
        · rcases r <;>
            first
              | (simp only []
                 split <;> simp [hne])
              | simp [hne]

theorem step_suppressed (F : Command → Except Unit Response)
    (A : Command → List ModificationAction)
    (st : SessionState) (c : Command) (s : Stage)
    (h : Nat.testBit st.protocol (stageBit s) = true) :
    Stage.toCallback s ∉ (step F A st c).2.1 := by
  have hsb : Stage.toCallback s ≠ Callback.body := by
    cases s <;> simp [Stage.toCallback]
  have hsa : Stage.toCallback s ≠ Callback.abortCb := by
    cases s <;> simp [Stage.toCallback]
  unfold step
  split
  · simp
  · split
    · cases c with
      | connect x y => exact stageCommandStep_suppressed F st _ _ s h
      | helo x y => exact stageCommandStep_suppressed F st _ _ s h
      | mailFrom x => exact stageCommandStep_suppressed F st _ _ s h
      | rcptTo x => exact stageCommandStep_suppressed F st _ _ s h
      | header x y => exact stageCommandStep_suppressed F st _ _ s h
      | eoh => exact stageCommandStep_suppressed F st _ _ s h
      | bodyChunk x => exact stageCommandStep_suppressed F st _ _ s h
      | endOfMessage =>
          by_cases hsk : st.skipping = true
          · simp [hsk]
          · rw [if_neg hsk]
            rcases F Command.endOfMessage with e | r <;> simp [hsb]
      | abort => rcases F Command.abort with e | r <;> simp [hsa]
      | quit => simp
    · simp

theorem run_suppressed (F : Command → Except Unit Response)
    (A : Command → List ModificationAction)
    (cmds : List Command) (st : SessionState) (s : Stage)
    (h : Nat.testBit st.protocol (stageBit s) = true) :
    Stage.toCallback s ∉ (run F A st cmds).2.1 := by
  induction cmds generalizing st with
  | nil => simp [run]
  | cons c cs ih =>
      simp only [run, List.mem_append]
      intro hmem
      rcases hmem with h1 | h2
      · exact step_suppressed F A st c s h h1
      · exact ih (step F A st c).1 (by rw [step_protocol]; exact h) h2

/-- C2: if a stage's bit is set in the negotiated protocol bitmask, the
filter callback for that stage (Connect, Helo, MailFrom, RcptTo,
Header, Headers or BodyChunk) is never invoked on that connection, for
every filter and every sequence of incoming commands; the machine
treats the suppressed stage as an implicit Continue instead of
erroring. -/
theorem suppressed_stage_never_invoked
    (F : Command → Except Unit Response)
    (A : Command → List ModificationAction)
    (r : OptNegResult) (cmds : List Command) (s : Stage)
    (h : Nat.testBit r.protocol (stageBit s) = true) :
    Stage.toCallback s ∉ (run F A (initialSession r) cmds).2.1 :=
  run_suppressed F A cmds (initialSession r) s h

/-- Closed instance of suppression: with the Helo bit set, a full
session never invokes the Helo callback. -/
theorem suppressed_stage_never_invoked_example :
    Stage.toCallback Stage.helo ∉
      (run (fun _ => Except.ok Response.Continue) (fun _ => [])
        (initialSession ⟨2, 0, 2⟩)
        [Command.connect "mx" [], Command.helo "client" [],
         Command.mailFrom "a", Command.rcptTo "b",
         Command.header "X" "1", Command.eoh,
         Command.bodyChunk [104, 105], Command.endOfMessage,
         Command.quit]).2.1 :=
  suppressed_stage_never_invoked (fun _ => Except.ok Response.Continue)
    (fun _ => []) ⟨2, 0, 2⟩ _ Stage.helo (by decide)

end GoMilter

namespace GoMilter

/-! ## C3: abort semantics -/

/-- States at or after Connect (where `Abort` is available). -/
def atOrAfterConnect : Phase → Bool
  | Phase.postConnect => true
  | Phase.postHelo => true
  | Phase.inMessage => true
  | _ => false

/-- C3: processing `Abort` in any state at or after Connect leaves every
connection-scoped field (negotiated version and bitmasks, Connect/Helo
macro symbols and verdicts) unchanged, empties every message-scoped
field (envelope, recipients, headers, body progress, pending
modification actions), and the next `MailFrom` begins a clean message
containing only the new sender. -/
theorem abort_preserves_connection_resets_message
    (F : Command → Except Unit Response)
    (A : Command → List ModificationAction)
    (st : SessionState) (r : Response) (sender : String)
    (hph : atOrAfterConnect st.phase = true)
    (hab : F Command.abort = Except.ok r)
    (hmf : F (Command.mailFrom sender) = Except.ok Response.Continue) :
    ((step F A st Command.abort).1.version = st.version ∧
     (step F A st Command.abort).1.actions = st.actions ∧
     (step F A st Command.abort).1.protocol = st.protocol ∧
     (step F A st Command.abort).1.connectSymbols = st.connectSymbols ∧
     (step F A st Command.abort).1.heloSymbols = st.heloSymbols ∧
     (step F A st Command.abort).1.connectVerdict = st.connectVerdict ∧
     (step F A st Command.abort).1.heloVerdict = st.heloVerdict) ∧
    ((step F A st Command.abort).1.envelopeFrom = none ∧
     (step F A st Command.abort).1.rcpts = [] ∧
     (step F A st Command.abort).1.msgHeaders = [] ∧
     (step F A st Command.abort).1.bodyProgress = 0 ∧
     (step F A st Command.abort).1.pendingActions = []) ∧
    ((step F A (step F A st Command.abort).1
        (Command.mailFrom sender)).1.envelopeFrom = some sender ∧
     (step F A (step F A st Command.abort).1
        (Command.mailFrom sender)).1.rcpts = [] ∧
     (step F A (step F A st Command.abort).1
        (Command.mailFrom sender)).1.msgHeaders = [] ∧
     (step F A (step F A st Command.abort).1
        (Command.mailFrom sender)).1.bodyProgress = 0 ∧
     (step F A (step F A st Command.abort).1
        (Command.mailFrom sender)).1.pendingActions = [] ∧
     (step F A (step F A st Command.abort).1
        (Command.mailFrom sender)).1.phase = Phase.inMessage) := by
  have hstep : (step F A st Command.abort).1 = resetMessage st := by
    unfold step
    rcases hphase : st.phase <;> simp [hphase, atOrAfterConnect] at hph ⊢ <;>
      simp [commandAllowed, hab]
  rw [hstep]
  refine ⟨⟨rfl, rfl, rfl, rfl, rfl, rfl, rfl⟩, ⟨rfl, rfl, rfl, rfl, rfl⟩, ?_⟩
  have hph' : (resetMessage st).phase = Phase.postHelo := rfl
  unfold step
  rw [hph']
  simp only [commandAllowed, reduceCtorEq, if_false, if_true]
  unfold stageCommandStep
  by_cases hbit :
      Nat.testBit (resetMessage st).protocol (stageBit Stage.mailFrom) = true
  · rw [if_pos hbit]
    exact ⟨rfl, rfl, rfl, rfl, rfl, rfl⟩
  · rw [if_neg hbit]
    have hskip : (resetMessage st).skipping = false := rfl
    rw [hskip]
    simp only [Bool.false_eq_true, if_false]
    rw [hmf]
    exact ⟨rfl, rfl, rfl, rfl, rfl, rfl⟩

/-- Closed instance of abort semantics at a concrete mid-message
session state. -/
theorem abort_preserves_connection_resets_message_example :
    ((step (fun _ => Except.ok Response.Continue) (fun _ => [])
        ⟨6, 3, 0, [("j", "q")], [("h", "x")], some Response.Continue,
         some Response.Continue, Phase.inMessage, some "old", ["r1"],
         [("A", "1")], 2, false, [ModificationAction.quarantine "w"]⟩
        Command.abort).1.connectSymbols = [("j", "q")] ∧
     (step (fun _ => Except.ok Response.Continue) (fun _ => [])
        ⟨6, 3, 0, [("j", "q")], [("h", "x")], some Response.Continue,
         some Response.Continue, Phase.inMessage, some "old", ["r1"],
         [("A", "1")], 2, false, [ModificationAction.quarantine "w"]⟩
        Command.abort).1.pendingActions = []) :=
  have h := abort_preserves_connection_resets_message
    (fun _ => Except.ok Response.Continue) (fun _ => [])
    ⟨6, 3, 0, [("j", "q")], [("h", "x")], some Response.Continue,
     some Response.Continue, Phase.inMessage, some "old", ["r1"],
     [("A", "1")], 2, false, [ModificationAction.quarantine "w"]⟩
    Response.Continue "new" (by decide) rfl rfl
  ⟨h.1.2.2.2.1, h.2.1.2.2.2.2⟩

/-! ## C4: encoder FIFO ordering -/

theorem foldl_enqueue_pending (as : List ModificationAction)
    (st : SessionState) :
    (as.foldl enqueue st).pendingActions = st.pendingActions ++ as := by
  induction as generalizing st with
  | nil => simp
  | cons a as ih =>
      rw [List.foldl_cons, ih]
      simp [enqueue]

theorem flushActions_eq_map (l : List ModificationAction) :
    flushActions l = l.map OutFrame.action := by
  induction l with
  | nil => rfl
  | cons a l ih => rw [flushActions, ih, List.map_cons]

/-- C4: enqueueing any sequence of modification actions during one
message and then flushing emits exactly one frame per action, in the
FIFO order the actions were created, followed by exactly one verdict
frame and nothing else. -/
theorem flush_fifo_actions_then_verdict (st : SessionState)
    (h : st.pendingActions = []) (as : List ModificationAction)
    (r : Response) :
    flush (as.foldl enqueue st).pendingActions r =
      as.map OutFrame.action ++ [OutFrame.verdict r] := by
  rw [flush, foldl_enqueue_pending, h, List.nil_append, flushActions_eq_map]

/-- Closed instance of the FIFO flush law at two concrete actions. -/
theorem flush_fifo_actions_then_verdict_example :
    flush ([ModificationAction.addHeader "X-Filtered" "yes",
            ModificationAction.quarantine "spam"].foldl enqueue
             (initialSession ⟨2, 0, 0⟩)).pendingActions
        Response.Accept =
      [OutFrame.action (ModificationAction.addHeader "X-Filtered" "yes"),
       OutFrame.action (ModificationAction.quarantine "spam"),
       OutFrame.verdict Response.Accept] :=
  flush_fifo_actions_then_verdict (initialSession ⟨2, 0, 0⟩) rfl
    [ModificationAction.addHeader "X-Filtered" "yes",
     ModificationAction.quarantine "spam"] Response.Accept

end GoMilter

namespace GoMilter

/-! ## C5: callback errors -/

theorem run_closed (F : Command → Except Unit Response)
    (A : Command → List ModificationAction)
    (cmds : List Command) (st : SessionState)
    (h : st.phase = Phase.closed) :
    run F A st cmds = (st, [], []) := by
  induction cmds with
  | nil => rfl
  | cons c cs ih =>
      have hstep : step F A st c = (st, [], []) := by
        unfold step
        rw [if_pos h]
      simp only [run, hstep, ih, List.append_nil]

theorem stageCommandStep_error (F : Command → Except Unit Response)
    (st : SessionState) (c : Command) (s : Stage)
    (herr : F c = Except.error ())
    (hinv : (stageCommandStep F st c s).2.1 ≠ []) :
    (stageCommandStep F st c s).2.2 =
      [OutFrame.verdict Response.TempFail] ∧
    (stageCommandStep F st c s).1.phase = Phase.closed := by
  unfold stageCommandStep at hinv ⊢
  by_cases h1 : Nat.testBit st.protocol (stageBit s) = true
  · rw [if_pos h1] at hinv
    simp at hinv
  · rw [if_neg h1] at hinv ⊢
    by_cases h2 : st.skipping = true
    · rw [if_pos h2] at hinv
      simp at hinv
    · rw [if_neg h2] at hinv ⊢
      rw [herr]
      exact ⟨rfl, rfl⟩

/-- C5: whenever a dispatched filter callback returns an error, the
machine writes exactly a TempFail verdict frame (never an Accept), moves
the connection to the closed phase, and processes no further commands or
callbacks on that connection. -/
theorem callback_error_tempfail_teardown
    (F : Command → Except Unit Response)
    (A : Command → List ModificationAction)
    (st : SessionState) (c : Command)
    (herr : F c = Except.error ())
    (hinv : (step F A st c).2.1 ≠ []) :
    (step F A st c).2.2 = [OutFrame.verdict Response.TempFail] ∧
    OutFrame.verdict Response.Accept ∉ (step F A st c).2.2 ∧
    (step F A st c).1.phase = Phase.closed ∧
    ∀ rest, run F A (step F A st c).1 rest = ((step F A st c).1, [], []) := by
  have hmain : (step F A st c).2.2 = [OutFrame.verdict Response.TempFail] ∧
      (step F A st c).1.phase = Phase.closed := by
    unfold step at hinv ⊢
    by_cases h1 : st.phase = Phase.closed
    · rw [if_pos h1] at hinv
      simp at hinv
    · rw [if_neg h1] at hinv ⊢
      by_cases h2 : commandAllowed st.phase c = true
      · rw [if_pos h2] at hinv ⊢
        cases c with
        | connect x y => exact stageCommandStep_error F st _ _ herr hinv
        | helo x y => exact stageCommandStep_error F st _ _ herr hinv
        | mailFrom x => exact stageCommandStep_error F st _ _ herr hinv
        | rcptTo x => exact stageCommandStep_error F st _ _ herr hinv
        | header x y => exact stageCommandStep_error F st _ _ herr hinv
        | eoh => exact stageCommandStep_error F st _ _ herr hinv
        | bodyChunk x => exact stageCommandStep_error F st _ _ herr hinv
        | endOfMessage =>
            by_cases hsk : st.skipping = true
            · rw [if_pos hsk] at hinv
              simp at hinv
            · rw [if_neg hsk] at hinv ⊢
              rw [herr]
              exact ⟨rfl, rfl⟩
        | abort =>
            rw [herr]
            exact ⟨rfl, rfl⟩
        | quit => simp at hinv
      · rw [if_neg h2] at hinv
        simp at hinv
  refine ⟨hmain.1, ?_, hmain.2, fun rest => run_closed F A rest _ hmain.2⟩
  rw [hmain.1]
  simp

/-- Closed instance of the callback-error law: a Helo callback error on
a live session yields one TempFail frame, a closed phase, and no
further processing. -/
theorem callback_error_tempfail_teardown_example :
    (step
        (fun c => match c with
          | Command.helo _ _ => Except.error ()
          | _ => Except.ok Response.Continue)
        (fun _ => [])
        { initialSession ⟨2, 0, 0⟩ with phase := Phase.postConnect }
        (Command.helo "client" [])).2.2 =
      [OutFrame.verdict Response.TempFail] ∧
    (step
        (fun c => match c with
          | Command.helo _ _ => Except.error ()
          | _ => Except.ok Response.Continue)
        (fun _ => [])
        { initialSession ⟨2, 0, 0⟩ with phase := Phase.postConnect }
        (Command.helo "client" [])).1.phase = Phase.closed :=
  have h := callback_error_tempfail_teardown
    (fun c => match c with
      | Command.helo _ _ => Except.error ()
      | _ => Except.ok Response.Continue)
    (fun _ => [])
    { initialSession ⟨2, 0, 0⟩ with phase := Phase.postConnect }
    (Command.helo "client" []) rfl (by decide)
  ⟨h.1, h.2.2.1⟩

end GoMilter

namespace GoMilter

/-! ## NoOpMilter (src/server.go)

The Go callbacks return `(Response, error)`; the model returns
`Except Unit Response` (`Except.ok` is a response with nil error,
`Except.error` a non-nil error) paired with the list of modification
actions the callback enqueued through its Modifier handle — `NoOpMilter`
never touches the Modifier, so that list is always empty.  Context and
Modifier arguments carry no data the callbacks read and are omitted;
the data-bearing arguments are kept. -/

def NoOpMilter.Connect (host family : String) (port : Nat)
    (addr : List Nat) : Except Unit Response × List ModificationAction :=
  (Except.ok RespContinue, [])

def NoOpMilter.Helo (name : String) :
    Except Unit Response × List ModificationAction :=
  (Except.ok RespContinue, [])

def NoOpMilter.MailFrom (sender : String) :
    Except Unit Response × List ModificationAction :=
  (Except.ok RespContinue, [])

def NoOpMilter.RcptTo (rcpt : String) :
    Except Unit Response × List ModificationAction :=
  (Except.ok RespContinue, [])

def NoOpMilter.Header (name value : String) :
    Except Unit Response × List ModificationAction :=
  (Except.ok RespContinue, [])

def NoOpMilter.Headers (h : List (String × String)) :
    Except Unit Response × List ModificationAction :=
  (Except.ok RespContinue, [])

def NoOpMilter.BodyChunk (chunk : List Nat) :
    Except Unit Response × List ModificationAction :=
  (Except.ok RespContinue, [])

def NoOpMilter.Body : Except Unit Response × List ModificationAction :=
  (Except.ok RespAccept, [])

/-- `Abort` returns only an error; `none` is the nil error. -/
def NoOpMilter.Abort : Option Unit × List ModificationAction :=
  (none, [])

/-- C9: every `NoOpMilter` callback returns `RespContinue` with a nil
error and no modification actions, except `Body`, which returns
`RespAccept` (a distinct response from `RespContinue`) with a nil
error, and `Abort`, which returns a nil error; none enqueues a
modification action. -/
theorem noOpMilter_responses :
    (∀ host family port addr,
      NoOpMilter.Connect host family port addr =
        (Except.ok RespContinue, [])) ∧
    (∀ name, NoOpMilter.Helo name = (Except.ok RespContinue, [])) ∧
    (∀ sender, NoOpMilter.MailFrom sender = (Except.ok RespContinue, [])) ∧
    (∀ rcpt, NoOpMilter.RcptTo rcpt = (Except.ok RespContinue, [])) ∧
    (∀ name value,
      NoOpMilter.Header name value = (Except.ok RespContinue, [])) ∧
    (∀ h, NoOpMilter.Headers h = (Except.ok RespContinue, [])) ∧
    (∀ chunk, NoOpMilter.BodyChunk chunk = (Except.ok RespContinue, [])) ∧
    NoOpMilter.Body = (Except.ok RespAccept, []) ∧
    RespAccept ≠ RespContinue ∧
    NoOpMilter.Abort = (none, []) :=
  ⟨fun _ _ _ _ => rfl, fun _ => rfl, fun _ => rfl, fun _ => rfl,
   fun _ _ => rfl, fun _ => rfl, fun _ => rfl, rfl, by decide, rfl⟩

/-! ## Server.Serve and Server.Close (src/server.go) -/

/-- A registered listener; `closeErr` is what its `Close()` returns. -/
structure Listener where
  closeErr : Option String
deriving DecidableEq, Repr

/-- From `src/server.go`: the `Server` struct — the configured action
and protocol capability bitmasks, the registered listeners and the
closed flag.  (`NewMilter`, the filter factory, is modelled in `serve`
below as an allocator handing out consecutive fresh instance ids.) -/
structure Server where
  actions : Nat
  protocol : Nat
  listeners : List Listener
  closed : Bool
deriving DecidableEq, Repr

/-- From `src/server.go` `Server.Serve`: the `milterSession` literal —
it carries the server's configured bitmasks, the accepted connection
and the filter instance returned by the per-connection `NewMilter()`
call. -/
structure MilterSessionRec where
  actions : Nat
  protocol : Nat
  conn : Nat
  backend : Nat
deriving DecidableEq, Repr

/-- One iteration of the accept loop either yields a connection or an
accept error. -/
inductive AcceptEvent where
  | accepted (conn : Nat)
  | failed (e : String)
deriving DecidableEq, Repr

/-- How `Serve` ends (relative to the modelled event list):
`looping` when the events are exhausted without an accept error,
`errServerClosed` for the sentinel `ErrServerClosed`, or the underlying
accept error. -/
inductive ServeOutcome where
  | looping
  | errServerClosed
  | acceptError (e : String)
deriving DecidableEq, Repr

/-- From `src/server.go` `Server.Serve`: for each accepted connection a
session is built from the server's bitmasks and a fresh `NewMilter()`
instance (fresh instances modelled as consecutive allocation ids
starting at `nextId`), and its handler is spawned; on an accept error
the loop returns `ErrServerClosed` when the server was closed and the
underlying error otherwise. -/
def serve (srv : Server) (nextId : Nat) :
    List AcceptEvent → List MilterSessionRec × ServeOutcome
  | [] => ([], ServeOutcome.looping)
  | AcceptEvent.accepted c :: rest =>
      let s : MilterSessionRec := ⟨srv.actions, srv.protocol, c, nextId⟩
      let r := serve srv (nextId + 1) rest
      (s :: r.1, r.2)
  | AcceptEvent.failed e :: _ =>
      ([],
       if srv.closed then ServeOutcome.errServerClosed
       else ServeOutcome.acceptError e)

theorem serve_get_fields (srv : Server) (evs : List AcceptEvent)
    (n i : Nat) (hi : i < (serve srv n evs).1.length) :
    ((serve srv n evs).1.get ⟨i, hi⟩).actions = srv.actions ∧
    ((serve srv n evs).1.get ⟨i, hi⟩).protocol = srv.protocol ∧
    ((serve srv n evs).1.get ⟨i, hi⟩).backend = n + i := by
  induction evs generalizing n i with
  | nil => simp [serve] at hi
  | cons ev rest ih =>
      cases ev with
      | accepted c =>
          cases i with
          | zero => exact ⟨rfl, rfl, rfl⟩
          | succ k =>
              have hk : k < (serve srv (n + 1) rest).1.length := by
                have := hi
                simp only [serve, List.length_cons] at this
                omega
              have h3 := ih (n + 1) k hk
              refine ⟨h3.1, h3.2.1, ?_⟩
              rw [show n + (k + 1) = (n + 1) + k by omega]
              exact h3.2.2
      | failed e => simp [serve] at hi

/-- C7: every session `Serve` creates carries the server's configured
action and protocol bitmasks and a filter instance from its own
`NewMilter()` call (allocation id `n + i` for the i-th connection), so
no two sessions of the run share a filter instance. -/
theorem serve_fresh_filter_per_connection (srv : Server)
    (evs : List AcceptEvent) (n i : Nat)
    (hi : i < (serve srv n evs).1.length) :
    ((serve srv n evs).1.get ⟨i, hi⟩).actions = srv.actions ∧
    ((serve srv n evs).1.get ⟨i, hi⟩).protocol = srv.protocol ∧
    ((serve srv n evs).1.get ⟨i, hi⟩).backend = n + i ∧
    ∀ j, ∀ hj : j < (serve srv n evs).1.length, i ≠ j →
      ((serve srv n evs).1.get ⟨i, hi⟩).backend ≠
        ((serve srv n evs).1.get ⟨j, hj⟩).backend := by
  obtain ⟨h1, h2, h3⟩ := serve_get_fields srv evs n i hi
  refine ⟨h1, h2, h3, fun j hj hne => ?_⟩
  rw [h3, (serve_get_fields srv evs n j hj).2.2]
  omega

/-- Closed instance of C7: two accepted connections receive distinct
backend instances and the configured bitmasks. -/
theorem serve_fresh_filter_per_connection_example :
    ((serve ⟨21, 5, [], false⟩ 0
        [AcceptEvent.accepted 100, AcceptEvent.accepted 200]).1.get
          ⟨0, by decide⟩).actions = 21 ∧
    ((serve ⟨21, 5, [], false⟩ 0
        [AcceptEvent.accepted 100, AcceptEvent.accepted 200]).1.get
          ⟨0, by decide⟩).backend ≠
      ((serve ⟨21, 5, [], false⟩ 0
        [AcceptEvent.accepted 100, AcceptEvent.accepted 200]).1.get
          ⟨1, by decide⟩).backend :=
  have h := serve_fresh_filter_per_connection ⟨21, 5, [], false⟩
    [AcceptEvent.accepted 100, AcceptEvent.accepted 200] 0 0 (by decide)
  ⟨h.1, h.2.2.2 1 (by decide) (by decide)⟩

/-- C8: when the accept loop hits its first accept error, `Serve`
returns `ErrServerClosed` if `Close` had set the closed flag, and the
underlying accept error otherwise. -/
theorem serve_returns_errserverclosed_after_close (srv : Server)
    (n : Nat) (pre rest : List AcceptEvent) (e : String)
    (hpre : ∀ ev ∈ pre, ∃ c, ev = AcceptEvent.accepted c) :
    (srv.closed = true →
      (serve srv n (pre ++ AcceptEvent.failed e :: rest)).2 =
        ServeOutcome.errServerClosed) ∧
    (srv.closed = false →
      (serve srv n (pre ++ AcceptEvent.failed e :: rest)).2 =
        ServeOutcome.acceptError e) := by
  induction pre generalizing n with
  | nil =>
      constructor
      · intro h
        simp [serve, h]
      · intro h
        simp [serve, h]
  | cons ev pre ih =>
      obtain ⟨c, rfl⟩ := hpre ev (List.mem_cons_self ev pre)
      have ih' := ih (n + 1) (fun x hx => hpre x (List.mem_cons_of_mem _ hx))
      simpa [serve] using ih'

/-- Closed instance of C8 in both branches. -/
theorem serve_returns_errserverclosed_after_close_example :
    (serve ⟨0, 0, [], true⟩ 0
        [AcceptEvent.accepted 4, AcceptEvent.failed "use of closed"]).2 =
      ServeOutcome.errServerClosed ∧
    (serve ⟨0, 0, [], false⟩ 0
        [AcceptEvent.accepted 4, AcceptEvent.failed "reset"]).2 =
      ServeOutcome.acceptError "reset" :=
  ⟨(serve_returns_errserverclosed_after_close ⟨0, 0, [], true⟩ 0
      [AcceptEvent.accepted 4] [] "use of closed"
      (fun ev hev => by
        simp at hev
        exact ⟨4, hev⟩)).1 rfl,
   (serve_returns_errserverclosed_after_close ⟨0, 0, [], false⟩ 0
      [AcceptEvent.accepted 4] [] "reset"
      (fun ev hev => by
        simp at hev
        exact ⟨4, hev⟩)).2 rfl⟩

end GoMilter

namespace GoMilter

/-! ## Server.Close (src/server.go) -/

/-- From `src/server.go` `Server.Close`: close each registered listener
in order and return the first close error immediately.  The first
result component records, per listener in order, whether its `Close()`
was called. -/
def closeRegistered : List Listener → List Bool × Option String
  | [] => ([], none)
  | ln :: rest =>
      match ln.closeErr with
      | some e => (true :: rest.map (fun _ => false), some e)
      | none =>
          let r := closeRegistered rest
          (true :: r.1, r.2)

/-- From `src/server.go` `Server.Close`: `s.closed = true` is assigned
first, then the listeners are closed in order with an early return on
the first error. -/
def serverClose (s : Server) : Server × List Bool × Option String :=
  let r := closeRegistered s.listeners
  ({ s with closed := true }, r.1, r.2)

theorem map_const_false (l : List Listener) :
    l.map (fun _ => false) = List.replicate l.length false := by
  induction l with
  | nil => rfl
  | cons a l ih => simp [ih, List.replicate_succ]

theorem closeRegistered_first_error (pre post : List Listener)
    (bad : Listener) (e : String)
    (hpre : ∀ l ∈ pre, l.closeErr = none)
    (hbad : bad.closeErr = some e) :
    closeRegistered (pre ++ bad :: post) =
      (List.replicate (pre.length + 1) true ++
        List.replicate post.length false, some e) := by
  induction pre with
  | nil =>
      simp [closeRegistered, hbad, map_const_false, List.replicate_succ]
  | cons l pre ih =>
      have hl : l.closeErr = none := hpre l (List.mem_cons_self l pre)
      have ih' := ih (fun x hx => hpre x (List.mem_cons_of_mem _ hx))
      simp [closeRegistered, hl, ih', List.replicate_succ]

/-- C10: `Close` sets the server's closed flag unconditionally (before
any listener close can fail), and when some listener's `Close()`
returns an error — here the first failing one — `Close` returns that
error immediately, so `Close()` is called on the listeners up to and
including the failing one and on none of the listeners registered after
it. -/
theorem close_sets_flag_and_stops_on_error (s : Server)
    (pre post : List Listener) (bad : Listener) (e : String)
    (hdec : s.listeners = pre ++ bad :: post)
    (hpre : ∀ l ∈ pre, l.closeErr = none)
    (hbad : bad.closeErr = some e) :
    (serverClose s).1.closed = true ∧
    (serverClose s).2.2 = some e ∧
    (serverClose s).2.1 =
      List.replicate (pre.length + 1) true ++
        List.replicate post.length false := by
  have h := closeRegistered_first_error pre post bad e hpre hbad
  unfold serverClose
  rw [hdec, h]
  exact ⟨rfl, rfl, rfl⟩

/-- Closed instance of C10: with three listeners where the second close
fails, the flag is set, the error is returned, and the third listener
is left unclosed. -/
theorem close_sets_flag_and_stops_on_error_example :
    (serverClose ⟨0, 0, [⟨none⟩, ⟨some "busy"⟩, ⟨none⟩], false⟩).1.closed =
      true ∧
    (serverClose ⟨0, 0, [⟨none⟩, ⟨some "busy"⟩, ⟨none⟩], false⟩).2.2 =
      some "busy" ∧
    (serverClose ⟨0, 0, [⟨none⟩, ⟨some "busy"⟩, ⟨none⟩], false⟩).2.1 =
      [true, true, false] :=
  have h := close_sets_flag_and_stops_on_error
    ⟨0, 0, [⟨none⟩, ⟨some "busy"⟩, ⟨none⟩], false⟩
    [⟨none⟩] [⟨none⟩] ⟨some "busy"⟩ "busy" rfl
    (fun l hl => by
      simp at hl
      rw [hl])
    rfl
  ⟨h.1, h.2.1, h.2.2⟩

end GoMilter
